import Mathlib

/-!
Verification of the ground-truth matcher and benchmark scoring logic of
`benchmark/benchmark_and_verify.py` (class `Verification` and the baseline
comparison step of `main`), as a shallow embedding in Lean.

Conventions of the embedding:
* Python tuples `(file, line, type, name)` used both for ground-truth items
  and for parsed tool findings become the structure `Item`.
* Python `set` accumulation is modelled by insertion-ordered duplicate-free
  lists (`insertUniq`); iteration over a set or list becomes iteration over
  the list in its presentation order.
* Python numbers are `Nat`/`Int`; the floating-point metric arithmetic of
  `compare` and of the baseline comparison is modelled over `Rat`.
* Filesystem-dependent steps (`Path.resolve()`, reading JSON fixtures) are
  abstracted: the loader receives the already-resolved path string of each
  fixture file entry together with its parsed `dead_items` list.
-/

/-- A scored item: the tuple `(file, line, type, name)` used by
`Verification` both for ground-truth entries and for parsed findings.
`line` is `none` when the producing tool reports no line number
(Python `None`). -/
structure Item where
  file : String
  line : Option Int
  ty : String
  name : String
deriving DecidableEq, Repr

/-- One `dead_items` record of a ground-truth fixture:
`{line_start, type, name, suppressed}`. -/
structure DeadItem where
  line_start : Option Int
  ty : String
  name : String
  suppressed : Bool
deriving DecidableEq, Repr

/-- Splitting a character list at a separator, keeping empty fields
(Python `str.split(sep)` for a one-character separator). -/
def splitOnChar (sep : Char) : List Char → List (List Char)
  | [] => [[]]
  | c :: cs =>
    match splitOnChar sep cs with
    | [] => [[]]
    | r :: rs => if c = sep then [] :: r :: rs else (c :: r) :: rs

/-- Splitting at `'/'`, mirroring how `pathlib` tokenises a POSIX path. -/
def splitSlash (cs : List Char) : List (List Char) := splitOnChar '/' cs

/-- Python `a.endswith(b)` on strings. -/
def endsWithS (s suffix : String) : Bool := suffix.data.isSuffixOf s.data

/-- Joining path components with `'/'`, mirroring `"/".join`. -/
def joinSlash : List (List Char) → List Char
  | [] => []
  | [c] => c
  | c :: cs => c ++ '/' :: joinSlash cs

/-- The function `normalize_path` (benchmark_and_verify.py line 99) on character lists:
`str(Path(p).as_posix()).strip("/")`.  `Path(p)` drops empty and `"."`
components; `as_posix` joins the remaining components with `/`; `strip("/")`
removes the leading root.  When every component vanishes, `Path` renders
`"."` for a relative path while an absolute path reduces to slashes that
`strip` removes entirely. -/
def normalizeChars (cs : List Char) : List Char :=
  let comps := (splitSlash cs).filter (fun c => !c.isEmpty && !(c == ['.']))
  if comps.isEmpty then (if cs.head? == some '/' then [] else ['.'])
  else joinSlash comps

/-- The function `normalize_path(p)`: the string-level wrapper of `normalizeChars`. -/
def normalizePath (p : String) : String := ⟨normalizeChars p.data⟩

/-- Python `os.path.basename` for POSIX separators: the part after the last `/`. -/
def pathBase (p : String) : String := ⟨((splitSlash p.data).getLastD [])⟩

/-- Insertion into a Python `set` modelled on lists: append the element
unless it is already present. -/
def insertUniq {α : Type} [BEq α] (l : List α) (x : α) : List α :=
  if l.contains x then l else l ++ [x]

/-- The method `Verification.load_ground_truth`: fold over the fixture file entries
(each entry is the resolved path string of a covered file together with its
`dead_items`), normalising the path, recording it in the covered-file set
and adding every dead item as a `(file, line_start, type, name)` tuple to
the truth set.  Note that the code reads `line_start`, `type` and `name`
of each item but never its `suppressed` flag.  Returns
`(truth_set, covered_files)`. -/
def loadGroundTruth (files : List (String × List DeadItem)) :
    List Item × List String :=
  files.foldl (fun acc entry =>
    let tFile := normalizePath entry.1
    let covered := insertUniq acc.2 tFile
    let truth := entry.2.foldl
      (fun ts item => insertUniq ts ⟨tFile, item.line_start, item.ty, item.name⟩)
      acc.1
    (truth, covered)) ([], [])

/-- The number of fixture dead items not marked `suppressed`; this is the
spec's notion of the size of the scoreable truth set. -/
def nonSuppressedCount (files : List (String × List DeadItem)) : Nat :=
  (files.map (fun entry => entry.2.countP (fun i => !i.suppressed))).sum

/-- One TP/FP/FN counter row of the `stats` dictionary. -/
structure Stats where
  TP : Nat
  FP : Nat
  FN : Nat
deriving DecidableEq, Repr

/-- The `stats` dictionary of `Verification.compare`: fixed keys
`overall`, `class`, `function`, `import`, `method`, `variable`. -/
structure StatsMap where
  overall : Stats
  cls : Stats
  fnc : Stats
  imp : Stats
  mth : Stats
  vbl : Stats
deriving DecidableEq, Repr

/-- The key list of the `stats` dictionary, in insertion order. -/
def statKeys : List String :=
  ["overall", "class", "function", "import", "method", "variable"]

/-- The five per-category keys (the known item types). -/
def catKeys : List String :=
  ["class", "function", "import", "method", "variable"]

/-- Updating `stats[k]` by `f` guarded by key membership: updating an unknown
key is a no-op, exactly like the guarded `if key in stats:` updates of the
source (the unguarded `stats["overall"]` accesses always hit the first
branch). -/
def StatsMap.upd (m : StatsMap) (k : String) (f : Stats → Stats) : StatsMap :=
  if k = "overall" then { m with overall := f m.overall }
  else if k = "class" then { m with cls := f m.cls }
  else if k = "function" then { m with fnc := f m.fnc }
  else if k = "import" then { m with imp := f m.imp }
  else if k = "method" then { m with mth := f m.mth }
  else if k = "variable" then { m with vbl := f m.vbl }
  else m

/-- Reading `stats[k]` (only ever used on the six known keys). -/
def StatsMap.get (m : StatsMap) (k : String) : Stats :=
  if k = "overall" then m.overall
  else if k = "class" then m.cls
  else if k = "function" then m.fnc
  else if k = "import" then m.imp
  else if k = "method" then m.mth
  else if k = "variable" then m.vbl
  else ⟨0, 0, 0⟩

def Stats.incTP (s : Stats) : Stats := { s with TP := s.TP + 1 }

def Stats.incFP (s : Stats) : Stats := { s with FP := s.FP + 1 }

def Stats.incFN (s : Stats) : Stats := { s with FN := s.FN + 1 }

/-- All-zero initial `stats` dictionary. -/
def initStats : StatsMap := ⟨⟨0,0,0⟩, ⟨0,0,0⟩, ⟨0,0,0⟩, ⟨0,0,0⟩, ⟨0,0,0⟩, ⟨0,0,0⟩⟩

/-- The `stat_type` value: the finding's type if it is a known stats key, else
`"overall"` (lines 700-703 of the source). -/
def statTypeOf (t : String) : String :=
  if statKeys.contains t then t else "overall"

/-- The coverage filter of `compare` (lines 705-718): a finding's file is
covered when its normalised form is in the covered-file set, or is a
suffix of a covered file, or has a covered file as suffix. -/
def isCovered (covered : List String) (fFile : String) : Bool :=
  let fNorm := normalizePath fFile
  covered.contains fNorm ||
    covered.any (fun cv => endsWithS fNorm cv || endsWithS cv fNorm)

/-- Python `f_name.split(".")[-1] if f_name else ""`: the simple (undotted) name. -/
def simpleName (s : String) : String :=
  if s = "" then "" else ⟨(splitOnChar '.' s.data).getLastD []⟩

/-- Line matching (line 730): trivially true when the finding has no line
number, otherwise both lines must be present and differ by at most 2. -/
def lineMatch : Option Int → Option Int → Bool
  | none, _ => true
  | some _, none => false
  | some fl, some tl => decide ((fl - tl).natAbs ≤ 2)

/-- Type matching (lines 734-736): exact equality or the symmetric pair
method/function. -/
def typeMatch (fTy tTy : String) : Bool :=
  fTy == tTy || (tTy == "method" && fTy == "function") ||
    (tTy == "function" && fTy == "method")

/-- Path matching (lines 723-726): equal basenames or one path a suffix of
the other. -/
def pathMatch (fFile tFile : String) : Bool :=
  pathBase fFile == pathBase tFile ||
    endsWithS fFile tFile || endsWithS tFile fFile

/-- Name matching (lines 739-742): equal simple names or equal full names. -/
def nameMatch (fName tName : String) : Bool :=
  simpleName fName == simpleName tName || fName == tName

/-- The candidate test of the inner loop of `compare` (lines 720-744):
a truth item matches a finding when path, line, type and name all match. -/
def matchesItem (f t : Item) : Bool :=
  pathMatch f.file t.file && lineMatch f.line t.line &&
    typeMatch f.ty t.ty && nameMatch f.name t.name

/-- The mutable state of the matching loop: the `stats` dictionary, the
`truth_remaining` pool, and the history of `(finding, truth)` pairs that
matched (the source records the finding halves in `matched_findings` and
removes the truth halves from the pool; keeping the pairs makes both
observable). -/
structure MatchState where
  stats : StatsMap
  remaining : List Item
  matched : List (Item × Item)
deriving DecidableEq, Repr

/-- One iteration of the `for f_item in findings` loop of `compare`
(lines 696-758): skip uncovered findings; otherwise search the remaining
pool in order for the first matching truth item.  On a match, increment
overall TP and the TP of the truth item's category and remove the item
from the pool; otherwise increment overall FP and the FP of the finding's
`stat_type` category. -/
def processFinding (covered : List String) (st : MatchState) (f : Item) :
    MatchState :=
  let statType := statTypeOf f.ty
  if !(isCovered covered f.file) then st
  else
    match st.remaining.find? (fun t => matchesItem f t) with
    | some t =>
      { stats := (st.stats.upd "overall" Stats.incTP).upd t.ty Stats.incTP,
        remaining := st.remaining.erase t,
        matched := st.matched ++ [(f, t)] }
    | none =>
      { st with
        stats := (st.stats.upd "overall" Stats.incFP).upd statType Stats.incFP }

/-- The whole matching loop, started from zero stats and the full truth
pool. -/
def runMatching (findings truth : List Item) (covered : List String) :
    MatchState :=
  findings.foldl (processFinding covered) ⟨initStats, truth, []⟩

/-- The truth items consumed by the run, in consumption order. -/
def matchedTruth (findings truth : List Item) (covered : List String) :
    List Item :=
  (runMatching findings truth covered).matched.map Prod.snd

/-- The FN pass of `compare` (lines 760-765): set overall FN to the size of
the remaining pool, then bump the FN of each remaining item's category. -/
def finalStats (findings truth : List Item) (covered : List String) :
    StatsMap :=
  let st := runMatching findings truth covered
  let s1 := st.stats.upd "overall" (fun s => { s with FN := st.remaining.length })
  st.remaining.foldl (fun m t => m.upd t.ty Stats.incFN) s1

/-- One row of the returned `results` dictionary: the raw counts together
with precision, recall and F1 (lines 767-786), over exact rationals. -/
structure Metrics where
  TP : Nat
  FP : Nat
  FN : Nat
  Precision : Rat
  Recall : Rat
  F1 : Rat
deriving DecidableEq, Repr

/-- The metric computation of lines 770-776. -/
def metricsOf (s : Stats) : Metrics :=
  let p : Rat := if s.TP + s.FP > 0 then (s.TP : Rat) / ((s.TP : Rat) + (s.FP : Rat)) else 0
  let r : Rat := if s.TP + s.FN > 0 then (s.TP : Rat) / ((s.TP : Rat) + (s.FN : Rat)) else 0
  let f : Rat := if p + r > 0 then 2 * (p * r) / (p + r) else 0
  ⟨s.TP, s.FP, s.FN, p, r, f⟩

/-- The method `Verification.compare` after tool-output parsing: per-key metric rows,
in the key order of the `stats` dictionary. -/
def compareResults (findings truth : List Item) (covered : List String) :
    List (String × Metrics) :=
  statKeys.map (fun k => (k, metricsOf ((finalStats findings truth covered).get k)))

/-- One entry of a benchmark report's `results` list as read by the
baseline comparison of `main` (lines 1080-1140): `name`, `time`,
`memory_mb`, `f1_score`, and the optional `precision` / `recall` keys
(present only in hand-written baselines). -/
structure BenchEntry where
  name : String
  time : Rat
  memory_mb : Rat
  f1_score : Rat
  precisionOpt : Option Rat
  recallOpt : Option Rat
deriving DecidableEq, Repr

/-- Substring test on character lists (Python `pat in s`). -/
def hasSubstr : List Char → List Char → Bool
  | [], pat => pat.isPrefixOf []
  | c :: t, pat => pat.isPrefixOf (c :: t) || hasSubstr t pat

/-- Python `"CytoScnPy" in current["name"]` (line 1088). -/
def isCytoName (s : String) : Bool := hasSubstr s.data "CytoScnPy".data

/-- The per-tool regression checks of lines 1089-1140, in source order:
time (ratio above threshold and diff above 1s), memory (ratio above
threshold and diff above 5MB), F1 (drop above 0.001), and precision /
recall (drop above 0.01, only when both reports carry the key).  Returns
the kinds of regression found. -/
def entryRegressions (th : Rat) (cur base : BenchEntry) : List String :=
  let timeDiff := cur.time - base.time
  let timeRatio := if base.time > 0 then timeDiff / base.time else 0
  let memDiff := cur.memory_mb - base.memory_mb
  let memRatio := if base.memory_mb > 0 then memDiff / base.memory_mb else 0
  let f1Diff := base.f1_score - cur.f1_score
  (if timeRatio > th ∧ timeDiff > 1 then ["Time"] else []) ++
  (if memRatio > th ∧ memDiff > 5 then ["Memory"] else []) ++
  (if f1Diff > 1/1000 then ["F1 Score"] else []) ++
  (match base.precisionOpt, cur.precisionOpt with
   | some bp, some cp => if bp - cp > 1/100 then ["Precision"] else []
   | _, _ => []) ++
  (match base.recallOpt, cur.recallOpt with
   | some br, some cr => if br - cr > 1/100 then ["Recall"] else []
   | _, _ => [])

/-- The comparison loop of lines 1080-1140: for each current entry find
its baseline row by exact name; entries with no baseline are skipped
(reported informationally).  Regression messages are routed to the
CytoScnPy list when the tool name contains `"CytoScnPy"`, else to the
informational list.  Returns `(cytoscnpy_regressions, other_regressions)`
as `(tool, kind)` pairs. -/
def collectRegressions (th : Rat) (current baseline : List BenchEntry) :
    List (String × String) × List (String × String) :=
  current.foldl (fun acc cur =>
    match baseline.find? (fun b => b.name == cur.name) with
    | none => acc
    | some base =>
      let regs := (entryRegressions th cur base).map (fun k => (cur.name, k))
      if isCytoName cur.name then (acc.1 ++ regs, acc.2)
      else (acc.1, acc.2 ++ regs))
    ([], [])

/-- Outcome of opening and parsing the `--compare-json` baseline file:
the file may be absent (`FileNotFoundError`), unreadable or malformed
(the generic `except`), or parsed. -/
inductive BaselineLoad where
  | missing
  | loadError
  | ok (entries : List BenchEntry)
deriving DecidableEq, Repr

/-- The exit code of the baseline comparison step (lines 1069-1162):
a missing baseline file prints a note and exits 1 (line 1157-1159), any
other load error exits 1 (line 1160-1162), and a loaded baseline exits 1
exactly when the CytoScnPy regression list is non-empty (lines 1149-1155);
otherwise the run falls through and the process ends with code 0. -/
def baselineCompareExit (th : Rat) (current : List BenchEntry)
    (load : BaselineLoad) : Nat :=
  match load with
  | .missing => 1
  | .loadError => 1
  | .ok baseline =>
    if ((collectRegressions th current baseline).1).isEmpty then 0 else 1

/-! ## Helper lemmas -/

theorem updOverall (m : StatsMap) (k : String) (f : Stats → Stats) :
    (m.upd k f).overall = if k = "overall" then f m.overall else m.overall := by
  unfold StatsMap.upd
  split_ifs <;> rfl

theorem matchesItem_same_file_line_name (file : String) (line : Option Int)
    (nm fTy tTy : String) :
    matchesItem ⟨file, line, fTy, nm⟩ ⟨file, line, tTy, nm⟩ = typeMatch fTy tTy := by
  unfold matchesItem pathMatch nameMatch
  cases line with
  | none => simp [lineMatch]
  | some l => simp [lineMatch]

/-! ## Claim theorems: scenario evaluations -/

/-- C8: with ground truth consisting of the single covered item
(`a.py`, line 10, function, `foo`) and a single finding
(`/abs/path/a.py`, line 12, function, `mod.foo`), the matcher pairs them
(basename match, line delta 2, simple name `foo`) and the overall row is
TP=1, FP=0, FN=0 with F1 = 1. -/
theorem scenario_a_overall :
    metricsOf ((finalStats [⟨"/abs/path/a.py", some 12, "function", "mod.foo"⟩]
        (loadGroundTruth [("a.py", [⟨some 10, "function", "foo", false⟩])]).1
        (loadGroundTruth [("a.py", [⟨some 10, "function", "foo", false⟩])]).2).get
        "overall")
      = ⟨1, 0, 0, 1, 1, 1⟩ := by
  rw [show (finalStats [⟨"/abs/path/a.py", some 12, "function", "mod.foo"⟩]
      (loadGroundTruth [("a.py", [⟨some 10, "function", "foo", false⟩])]).1
      (loadGroundTruth [("a.py", [⟨some 10, "function", "foo", false⟩])]).2).get
      "overall" = ⟨1, 0, 0⟩ from by decide]
  norm_num [metricsOf]

/-- C10: a cross-type match (a finding typed `function` consuming a truth
item typed `method`) books its TP in the `method` category, not in
`function`; an unmatched finding of a known type books one FP in its own
category and one in `overall`; and an unmatched finding whose type is
outside the known category set increments the overall FP by 2 (the
`stat_type` fallback re-routes the second, guarded increment to
`overall`). -/
theorem category_keying :
    ((finalStats [⟨"a.py", some 10, "function", "foo"⟩]
        [⟨"a.py", some 10, "method", "foo"⟩] ["a.py"]).get "method").TP = 1
    ∧ ((finalStats [⟨"a.py", some 10, "function", "foo"⟩]
        [⟨"a.py", some 10, "method", "foo"⟩] ["a.py"]).get "function").TP = 0
    ∧ ((finalStats [⟨"a.py", some 5, "import", "x"⟩] [] ["a.py"]).get
        "import").FP = 1
    ∧ ((finalStats [⟨"a.py", some 5, "import", "x"⟩] [] ["a.py"]).get
        "overall").FP = 1
    ∧ ((finalStats [⟨"a.py", some 5, "widget", "x"⟩] [] ["a.py"]).get
        "overall").FP = 2 := by decide

/-- C1 (divergence of the code from the spec): a `dead_items` record with
`suppressed = true` is loaded into the truth set anyway — the loader never
reads the flag — so the finding of the spec's Scenario C is matched
against it (overall TP=1, FP=0, FN=0 instead of the specified FP=1), and
with no findings the suppressed item is counted as a false negative. -/
theorem suppressed_item_is_scored :
    (loadGroundTruth [("a.py", [⟨some 5, "function", "foo", true⟩])]).1
      = [⟨"a.py", some 5, "function", "foo"⟩]
    ∧ ((finalStats [⟨"a.py", some 5, "function", "foo"⟩]
        (loadGroundTruth [("a.py", [⟨some 5, "function", "foo", true⟩])]).1
        (loadGroundTruth [("a.py", [⟨some 5, "function", "foo", true⟩])]).2).get
        "overall") = ⟨1, 0, 0⟩
    ∧ ((finalStats []
        (loadGroundTruth [("a.py", [⟨some 5, "function", "foo", true⟩])]).1
        (loadGroundTruth [("a.py", [⟨some 5, "function", "foo", true⟩])]).2).get
        "overall").FN = 1 := by decide

/-- C2 (counterexample to the claim as stated): with a fixture holding one
suppressed item and no findings, the loaded truth set still contains that
item, so overall TP + FN = 1 while the number of non-suppressed
ground-truth items is 0. -/
theorem conservation_counterexample :
    (((finalStats []
        (loadGroundTruth [("a.py", [⟨some 5, "function", "foo", true⟩])]).1
        (loadGroundTruth [("a.py", [⟨some 5, "function", "foo", true⟩])]).2).get
        "overall").TP
      + ((finalStats []
        (loadGroundTruth [("a.py", [⟨some 5, "function", "foo", true⟩])]).1
        (loadGroundTruth [("a.py", [⟨some 5, "function", "foo", true⟩])]).2).get
        "overall").FN = 1)
    ∧ nonSuppressedCount [("a.py", [⟨some 5, "function", "foo", true⟩])] = 0 := by
  decide

/-- C9 (counterexample to the claim as stated): `normalize_path` does not
lower-case, so two paths differing only in letter case normalize to
different strings. -/
theorem normalize_path_not_lowercased :
    (normalizePath "A.py" == normalizePath "a.py") = false := by decide

/-- C4 (counterexample to the claim as stated): the same truth set
presented in two enumeration orders makes the single finding consume a
different truth item, changing both the matched pairs and the
per-category statistics (`function` TP flips between 1 and 0). -/
theorem matcher_depends_on_truth_order :
    ([(⟨"a.py", some 10, "function", "foo"⟩ : Item),
        ⟨"a.py", some 10, "method", "foo"⟩].Perm
      [⟨"a.py", some 10, "method", "foo"⟩, ⟨"a.py", some 10, "function", "foo"⟩])
    ∧ ((finalStats [⟨"a.py", some 10, "function", "foo"⟩]
        [⟨"a.py", some 10, "function", "foo"⟩, ⟨"a.py", some 10, "method", "foo"⟩]
        ["a.py"]).get "function").TP = 1
    ∧ ((finalStats [⟨"a.py", some 10, "function", "foo"⟩]
        [⟨"a.py", some 10, "method", "foo"⟩, ⟨"a.py", some 10, "function", "foo"⟩]
        ["a.py"]).get "function").TP = 0
    ∧ (runMatching [⟨"a.py", some 10, "function", "foo"⟩]
        [⟨"a.py", some 10, "function", "foo"⟩, ⟨"a.py", some 10, "method", "foo"⟩]
        ["a.py"]).matched.map Prod.snd = [⟨"a.py", some 10, "function", "foo"⟩]
    ∧ (runMatching [⟨"a.py", some 10, "function", "foo"⟩]
        [⟨"a.py", some 10, "method", "foo"⟩, ⟨"a.py", some 10, "function", "foo"⟩]
        ["a.py"]).matched.map Prod.snd = [⟨"a.py", some 10, "method", "foo"⟩] := by
  refine ⟨List.Perm.swap _ _ _, by decide, by decide, by decide, by decide⟩

/-- C3 (counterexample to the claim as stated): when the baseline file is
missing, the comparison step exits with code 1 (the `FileNotFoundError`
branch calls `sys.exit(1)`), not 0 as claimed. -/
theorem missing_baseline_exit_code :
    baselineCompareExit (1/10) [] BaselineLoad.missing = 1 := by decide

/-- C6: for every category count triple, the scorer returns
Precision = TP/(TP+FP) with 0 when the denominator is 0, Recall =
TP/(TP+FN) with 0 when the denominator is 0, and F1 = 2·P·R/(P+R) with 0
when P+R = 0; in particular TP=0, FP=0 gives Precision = 0 and TP=0, FN=0
gives Recall = 0. -/
theorem metrics_zero_denominator (tp fp fn : Nat) :
    (metricsOf ⟨tp, fp, fn⟩).Precision
        = (if tp + fp = 0 then 0 else (tp : Rat) / ((tp : Rat) + (fp : Rat)))
    ∧ (metricsOf ⟨tp, fp, fn⟩).Recall
        = (if tp + fn = 0 then 0 else (tp : Rat) / ((tp : Rat) + (fn : Rat)))
    ∧ (metricsOf ⟨tp, fp, fn⟩).F1
        = (if (metricsOf ⟨tp, fp, fn⟩).Precision + (metricsOf ⟨tp, fp, fn⟩).Recall = 0
           then 0
           else 2 * ((metricsOf ⟨tp, fp, fn⟩).Precision * (metricsOf ⟨tp, fp, fn⟩).Recall)
                / ((metricsOf ⟨tp, fp, fn⟩).Precision + (metricsOf ⟨tp, fp, fn⟩).Recall))
    ∧ (metricsOf ⟨0, 0, fn⟩).Precision = 0
    ∧ (metricsOf ⟨0, fp, 0⟩).Recall = 0 := by
  have hP : (metricsOf ⟨tp, fp, fn⟩).Precision
      = if tp + fp > 0 then (tp : Rat) / ((tp : Rat) + (fp : Rat)) else 0 := rfl
  have hR : (metricsOf ⟨tp, fp, fn⟩).Recall
      = if tp + fn > 0 then (tp : Rat) / ((tp : Rat) + (fn : Rat)) else 0 := rfl
  have hF : (metricsOf ⟨tp, fp, fn⟩).F1
      = if (metricsOf ⟨tp, fp, fn⟩).Precision + (metricsOf ⟨tp, fp, fn⟩).Recall > 0
        then 2 * ((metricsOf ⟨tp, fp, fn⟩).Precision * (metricsOf ⟨tp, fp, fn⟩).Recall)
             / ((metricsOf ⟨tp, fp, fn⟩).Precision + (metricsOf ⟨tp, fp, fn⟩).Recall)
        else 0 := rfl
  have hPnn : 0 ≤ (metricsOf ⟨tp, fp, fn⟩).Precision := by
    rw [hP]; split_ifs
    · exact div_nonneg (by positivity) (by positivity)
    · exact le_refl 0
  have hRnn : 0 ≤ (metricsOf ⟨tp, fp, fn⟩).Recall := by
    rw [hR]; split_ifs
    · exact div_nonneg (by positivity) (by positivity)
    · exact le_refl 0
  refine ⟨?_, ?_, ?_, rfl, rfl⟩
  · rw [hP]
    rcases Nat.eq_zero_or_pos (tp + fp) with h | h
    · rw [if_neg (by omega), if_pos h]
    · rw [if_pos h, if_neg (by omega)]
  · rw [hR]
    rcases Nat.eq_zero_or_pos (tp + fn) with h | h
    · rw [if_neg (by omega), if_pos h]
    · rw [if_pos h, if_neg (by omega)]
  · rw [hF]
    rcases eq_or_lt_of_le (add_nonneg hPnn hRnn) with h | h
    · rw [if_neg (by rw [← h]; exact lt_irrefl 0), if_pos h.symm]
    · rw [if_pos h, if_neg (ne_of_gt h)]

/-- C7: for a finding and a truth item with identical path, line and name,
the full candidate test succeeds exactly when the types are equal or form
the symmetric pair function/method; in particular `function` matches
`method` and vice versa, while `import` never matches `variable`. -/
theorem type_predicate_symmetric (file : String) (line : Option Int)
    (nm fTy tTy : String) :
    (matchesItem ⟨file, line, fTy, nm⟩ ⟨file, line, tTy, nm⟩ = true ↔
       (fTy = tTy ∨ (fTy = "function" ∧ tTy = "method")
          ∨ (fTy = "method" ∧ tTy = "function")))
    ∧ matchesItem ⟨file, line, "function", nm⟩ ⟨file, line, "method", nm⟩ = true
    ∧ matchesItem ⟨file, line, "method", nm⟩ ⟨file, line, "function", nm⟩ = true
    ∧ matchesItem ⟨file, line, "import", nm⟩ ⟨file, line, "variable", nm⟩ = false := by
  refine ⟨?_, ?_, ?_, ?_⟩ <;> rw [matchesItem_same_file_line_name]
  · unfold typeMatch
    simp only [Bool.or_eq_true, Bool.and_eq_true, beq_iff_eq]
    tauto
  · decide
  · decide
  · decide

/-! ## Conservation and single-consumption invariants -/

theorem processFinding_not_covered (cov : List String) (st : MatchState)
    (f : Item) (h : isCovered cov f.file = false) :
    processFinding cov st f = st := by
  unfold processFinding
  rw [h]
  rfl

theorem processFinding_covered_none (cov : List String) (st : MatchState)
    (f : Item) (h1 : isCovered cov f.file = true)
    (h2 : st.remaining.find? (fun t => matchesItem f t) = none) :
    processFinding cov st f =
      { st with
        stats := (st.stats.upd "overall" Stats.incFP).upd (statTypeOf f.ty)
          Stats.incFP } := by
  unfold processFinding
  rw [h1, h2]
  rfl

theorem processFinding_covered_some (cov : List String) (st : MatchState)
    (f t : Item) (h1 : isCovered cov f.file = true)
    (h2 : st.remaining.find? (fun u => matchesItem f u) = some t) :
    processFinding cov st f =
      { stats := (st.stats.upd "overall" Stats.incTP).upd t.ty Stats.incTP,
        remaining := st.remaining.erase t,
        matched := st.matched ++ [(f, t)] } := by
  unfold processFinding
  rw [h1, h2]
  rfl

theorem processFinding_overall (cov : List String) (st : MatchState) (f : Item)
    (hrem : ∀ t ∈ st.remaining, t.ty ≠ "overall")
    (hf : statTypeOf f.ty ≠ "overall") :
    ((processFinding cov st f).stats.overall.TP
        + (processFinding cov st f).remaining.length
      = st.stats.overall.TP + st.remaining.length)
    ∧ ((processFinding cov st f).stats.overall.TP
        + (processFinding cov st f).stats.overall.FP
      = st.stats.overall.TP + st.stats.overall.FP
        + (if isCovered cov f.file then 1 else 0))
    ∧ (∀ t ∈ (processFinding cov st f).remaining, t.ty ≠ "overall") := by
  cases hcov : isCovered cov f.file
  · rw [processFinding_not_covered cov st f hcov]
    exact ⟨rfl, by simp, hrem⟩
  · cases hfind : st.remaining.find? (fun u => matchesItem f u) with
    | none =>
      rw [processFinding_covered_none cov st f hcov hfind]
      have ho : ((st.stats.upd "overall" Stats.incFP).upd (statTypeOf f.ty)
          Stats.incFP).overall = Stats.incFP st.stats.overall := by
        rw [updOverall, if_neg hf, updOverall, if_pos rfl]
      refine ⟨?_, ?_, hrem⟩
      · simp [ho, Stats.incFP]
      · simp [ho, Stats.incFP, hcov]
        omega
    | some t =>
      have ht : t ∈ st.remaining := List.mem_of_find?_eq_some hfind
      have hty : t.ty ≠ "overall" := hrem t ht
      rw [processFinding_covered_some cov st f t hcov hfind]
      have ho : ((st.stats.upd "overall" Stats.incTP).upd t.ty
          Stats.incTP).overall = Stats.incTP st.stats.overall := by
        rw [updOverall, if_neg hty, updOverall, if_pos rfl]
      have hlen : (st.remaining.erase t).length = st.remaining.length - 1 :=
        List.length_erase_of_mem ht
      have hpos : 0 < st.remaining.length := List.length_pos_of_mem ht
      refine ⟨?_, ?_, ?_⟩
      · simp only [ho, Stats.incTP, hlen]
        omega
      · simp [ho, Stats.incTP, hcov]
        omega
      · intro u hu
        exact hrem u (List.mem_of_mem_erase hu)

theorem foldl_overall_inv (cov : List String) (fs : List Item) :
    ∀ st : MatchState,
      (∀ t ∈ st.remaining, t.ty ≠ "overall") →
      (∀ f ∈ fs, statTypeOf f.ty ≠ "overall") →
      ((fs.foldl (processFinding cov) st).stats.overall.TP
          + (fs.foldl (processFinding cov) st).remaining.length
        = st.stats.overall.TP + st.remaining.length)
      ∧ ((fs.foldl (processFinding cov) st).stats.overall.TP
          + (fs.foldl (processFinding cov) st).stats.overall.FP
        = st.stats.overall.TP + st.stats.overall.FP
          + fs.countP (fun f => isCovered cov f.file))
      ∧ (∀ t ∈ (fs.foldl (processFinding cov) st).remaining, t.ty ≠ "overall") := by
  induction fs with
  | nil =>
    intro st h _
    exact ⟨rfl, by simp, h⟩
  | cons f fs ih =>
    intro st hrem hf
    have hstep := processFinding_overall cov st f hrem (hf f (List.mem_cons_self f fs))
    have hrec := ih (processFinding cov st f) hstep.2.2
      (fun g hg => hf g (List.mem_cons_of_mem f hg))
    rw [List.foldl_cons] at *
    refine ⟨?_, ?_, hrec.2.2⟩
    · omega
    · rw [List.countP_cons]
      have h1 := hstep.2.1
      have h2 := hrec.2.1
      omega

theorem fnFold_overall (rem : List Item) :
    ∀ m : StatsMap, (∀ t ∈ rem, t.ty ≠ "overall") →
      (rem.foldl (fun m t => m.upd t.ty Stats.incFN) m).overall = m.overall := by
  induction rem with
  | nil => intro m _; rfl
  | cons t rem ih =>
    intro m h
    rw [List.foldl_cons, ih _ (fun u hu => h u (List.mem_cons_of_mem t hu)),
      updOverall, if_neg (h t (List.mem_cons_self t rem))]

theorem mem_catKeys_cases {s : String} (h : s ∈ catKeys) :
    s = "class" ∨ s = "function" ∨ s = "import" ∨ s = "method" ∨ s = "variable" := by
  simpa [catKeys] using h

/-- C2 (amended): whenever every ground-truth item and every finding
carries one of the five known item types, the overall row satisfies
TP + FN = |truth set handed to the matcher| and TP + FP = number of
findings passing the coverage filter.  (The claim's "non-suppressed"
qualifier fails because the loader never filters suppressed items, and
items or findings typed outside the known set break the sums through the
overall-row double counting.) -/
theorem overall_conservation (findings truth : List Item) (covered : List String)
    (ht : ∀ t ∈ truth, t.ty ∈ catKeys) (hf : ∀ f ∈ findings, f.ty ∈ catKeys) :
    (finalStats findings truth covered).overall.TP
        + (finalStats findings truth covered).overall.FN = truth.length
    ∧ (finalStats findings truth covered).overall.TP
        + (finalStats findings truth covered).overall.FP
      = findings.countP (fun f => isCovered covered f.file) := by
  have ht' : ∀ t ∈ truth, t.ty ≠ "overall" := by
    intro t hmem
    rcases mem_catKeys_cases (ht t hmem) with h1 | h1 | h1 | h1 | h1 <;>
      rw [h1] <;> decide
  have hf' : ∀ f ∈ findings, statTypeOf f.ty ≠ "overall" := by
    intro f hmem
    rcases mem_catKeys_cases (hf f hmem) with h1 | h1 | h1 | h1 | h1 <;>
      rw [h1] <;> decide
  have inv := foldl_overall_inv covered findings ⟨initStats, truth, []⟩ ht' hf'
  rw [show ({ stats := initStats, remaining := truth, matched := [] } :
        MatchState).stats.overall.TP = 0 from rfl,
      show ({ stats := initStats, remaining := truth, matched := [] } :
        MatchState).stats.overall.FP = 0 from rfl,
      show ({ stats := initStats, remaining := truth, matched := [] } :
        MatchState).remaining = truth from rfl] at inv
  have hrem' : ∀ t ∈ (runMatching findings truth covered).remaining,
      t.ty ≠ "overall" := by
    unfold runMatching
    exact inv.2.2
  have hTP : (finalStats findings truth covered).overall.TP
      = (runMatching findings truth covered).stats.overall.TP := by
    simp only [finalStats]
    rw [fnFold_overall _ _ hrem', updOverall, if_pos rfl]
  have hFP : (finalStats findings truth covered).overall.FP
      = (runMatching findings truth covered).stats.overall.FP := by
    simp only [finalStats]
    rw [fnFold_overall _ _ hrem', updOverall, if_pos rfl]
  have hFN : (finalStats findings truth covered).overall.FN
      = (runMatching findings truth covered).remaining.length := by
    simp only [finalStats]
    rw [fnFold_overall _ _ hrem', updOverall, if_pos rfl]
  rw [hTP, hFP, hFN]
  unfold runMatching
  exact ⟨by omega, by omega⟩

/-- Witness for `overall_conservation` at the concrete Scenario-A-like
input: one function truth item, one covered import finding. -/
theorem overall_conservation_witness :
    (∀ t ∈ [(⟨"a.py", some 10, "function", "foo"⟩ : Item)], t.ty ∈ catKeys)
    ∧ (∀ f ∈ [(⟨"a.py", some 3, "import", "os"⟩ : Item)], f.ty ∈ catKeys)
    ∧ ((finalStats [⟨"a.py", some 3, "import", "os"⟩]
          [⟨"a.py", some 10, "function", "foo"⟩] ["a.py"]).overall.TP
        + (finalStats [⟨"a.py", some 3, "import", "os"⟩]
          [⟨"a.py", some 10, "function", "foo"⟩] ["a.py"]).overall.FN
        = [(⟨"a.py", some 10, "function", "foo"⟩ : Item)].length
      ∧ (finalStats [⟨"a.py", some 3, "import", "os"⟩]
          [⟨"a.py", some 10, "function", "foo"⟩] ["a.py"]).overall.TP
        + (finalStats [⟨"a.py", some 3, "import", "os"⟩]
          [⟨"a.py", some 10, "function", "foo"⟩] ["a.py"]).overall.FP
        = [(⟨"a.py", some 3, "import", "os"⟩ : Item)].countP
            (fun f => isCovered ["a.py"] f.file)) :=
  ⟨by decide, by decide,
    overall_conservation [⟨"a.py", some 3, "import", "os"⟩]
      [⟨"a.py", some 10, "function", "foo"⟩] ["a.py"] (by decide) (by decide)⟩

theorem foldl_matched_perm (cov : List String) (fs : List Item) :
    ∀ st : MatchState,
      ((fs.foldl (processFinding cov) st).matched.map Prod.snd
          ++ (fs.foldl (processFinding cov) st).remaining).Perm
        (st.matched.map Prod.snd ++ st.remaining) := by
  induction fs with
  | nil => intro st; exact List.Perm.refl _
  | cons f fs ih =>
    intro st
    rw [List.foldl_cons]
    refine (ih (processFinding cov st f)).trans ?_
    cases hcov : isCovered cov f.file
    · rw [processFinding_not_covered cov st f hcov]
    · cases hfind : st.remaining.find? (fun u => matchesItem f u) with
      | none =>
        rw [processFinding_covered_none cov st f hcov hfind]
      | some t =>
        have ht : t ∈ st.remaining := List.mem_of_find?_eq_some hfind
        rw [processFinding_covered_some cov st f t hcov hfind]
        simp only [List.map_append, List.map_cons, List.map_nil]
        rw [List.append_assoc]
        exact List.Perm.append_left _ ((List.perm_cons_erase ht).symm)

/-- C5: each ground-truth item is consumed by at most one finding — when
the truth pool has no duplicates, the consumed items are pairwise distinct
members of the pool — and in the concrete two-findings-one-item scenario
the first finding consumes the item while the second is counted as a
false positive (overall TP = 1, FP = 1, one matched pair). -/
theorem truth_consumed_at_most_once (findings truth : List Item)
    (covered : List String) (h : truth.Nodup) :
    ((matchedTruth findings truth covered).Nodup
      ∧ ∀ t ∈ matchedTruth findings truth covered, t ∈ truth)
    ∧ ((finalStats [⟨"a.py", some 10, "function", "foo"⟩,
          ⟨"a.py", some 11, "function", "foo"⟩]
        [⟨"a.py", some 10, "function", "foo"⟩] ["a.py"]).overall.TP = 1
      ∧ (finalStats [⟨"a.py", some 10, "function", "foo"⟩,
          ⟨"a.py", some 11, "function", "foo"⟩]
        [⟨"a.py", some 10, "function", "foo"⟩] ["a.py"]).overall.FP = 1
      ∧ (runMatching [⟨"a.py", some 10, "function", "foo"⟩,
          ⟨"a.py", some 11, "function", "foo"⟩]
        [⟨"a.py", some 10, "function", "foo"⟩] ["a.py"]).matched
        = [(⟨"a.py", some 10, "function", "foo"⟩,
            ⟨"a.py", some 10, "function", "foo"⟩)]) := by
  have hperm := foldl_matched_perm covered findings ⟨initStats, truth, []⟩
  rw [show ({ stats := initStats, remaining := truth, matched := [] } :
      MatchState).matched.map Prod.snd
      ++ ({ stats := initStats, remaining := truth, matched := [] } :
      MatchState).remaining = truth from rfl] at hperm
  refine ⟨⟨?_, ?_⟩, by decide, by decide, by decide⟩
  · exact List.Nodup.of_append_left (hperm.nodup_iff.mpr h)
  · intro t htm
    exact hperm.mem_iff.mp (List.mem_append_left _ htm)

/-- Witness for `truth_consumed_at_most_once` at the Scenario E input. -/
theorem truth_consumed_at_most_once_witness :
    ([(⟨"a.py", some 10, "function", "foo"⟩ : Item)].Nodup)
    ∧ (matchedTruth [⟨"a.py", some 10, "function", "foo"⟩,
        ⟨"a.py", some 11, "function", "foo"⟩]
        [⟨"a.py", some 10, "function", "foo"⟩] ["a.py"]).Nodup :=
  ⟨by decide,
    (truth_consumed_at_most_once
      [⟨"a.py", some 10, "function", "foo"⟩, ⟨"a.py", some 11, "function", "foo"⟩]
      [⟨"a.py", some 10, "function", "foo"⟩] ["a.py"] (by decide)).1.1⟩

/-! ## Determinism relative to container orders -/

theorem isCovered_perm {cov cov' : List String} (h : cov.Perm cov') (s : String) :
    isCovered cov s = isCovered cov' s := by
  simp only [isCovered]
  have h1 : cov.contains (normalizePath s) = cov'.contains (normalizePath s) := by
    rw [Bool.eq_iff_iff]
    simp only [List.contains, List.elem_iff]
    exact ⟨fun hx => h.mem_iff.mp hx, fun hx => h.mem_iff.mpr hx⟩
  have h2 : (cov.any fun cv =>
        endsWithS (normalizePath s) cv || endsWithS cv (normalizePath s))
      = (cov'.any fun cv =>
        endsWithS (normalizePath s) cv || endsWithS cv (normalizePath s)) := by
    rw [Bool.eq_iff_iff]
    simp only [List.any_eq_true]
    exact ⟨fun ⟨x, hx, hp⟩ => ⟨x, h.mem_iff.mp hx, hp⟩,
      fun ⟨x, hx, hp⟩ => ⟨x, h.mem_iff.mpr hx, hp⟩⟩
  rw [h1, h2]

theorem processFinding_cov_congr {cov cov' : List String} (h : cov.Perm cov') :
    processFinding cov = processFinding cov' := by
  funext st f
  unfold processFinding
  rw [isCovered_perm h]

/-- C4 (amended): the matcher is a pure function of the presented
sequences — two runs on the same findings sequence, the same truth-pool
sequence and covered-file sets that are equal as sets (any enumeration
order) produce identical match sets and identical per-category metric
rows.  (By `matcher_depends_on_truth_order`, equality of the truth pool
as a set is not enough: its enumeration order can change the outcome.) -/
theorem matcher_deterministic (findings truth : List Item)
    (cov cov' : List String) (h : cov.Perm cov') :
    compareResults findings truth cov = compareResults findings truth cov'
    ∧ (runMatching findings truth cov).matched
      = (runMatching findings truth cov').matched := by
  have hpf := processFinding_cov_congr h
  constructor
  · unfold compareResults finalStats runMatching
    rw [hpf]
  · unfold runMatching
    rw [hpf]

/-- Witness for `matcher_deterministic` at a two-element covered set
presented in both orders. -/
theorem matcher_deterministic_witness :
    (["a.py", "b.py"].Perm ["b.py", "a.py"])
    ∧ compareResults [] [] ["a.py", "b.py"]
      = compareResults [] [] ["b.py", "a.py"] :=
  ⟨List.Perm.swap "b.py" "a.py" [],
    (matcher_deterministic [] [] ["a.py", "b.py"] ["b.py", "a.py"]
      (List.Perm.swap "b.py" "a.py" [])).1⟩

/-- C3 (amended): a missing baseline file makes the comparison step exit
with code 1, and the run exits 0 exactly when the baseline loaded and no
CytoScnPy regression was collected. -/
theorem baseline_comparison_exit (th : Rat) (current : List BenchEntry)
    (load : BaselineLoad) :
    baselineCompareExit th current BaselineLoad.missing = 1
    ∧ (baselineCompareExit th current load = 0 ↔
        ∃ b, load = BaselineLoad.ok b
          ∧ (collectRegressions th current b).1 = []) := by
  refine ⟨rfl, ?_⟩
  cases load with
  | missing => simp [baselineCompareExit]
  | loadError => simp [baselineCompareExit]
  | ok b =>
    by_cases hb : (collectRegressions th current b).1 = []
    · simp [baselineCompareExit, List.isEmpty_iff, hb]
    · simp [baselineCompareExit, List.isEmpty_iff, hb]

/-! ## Path normalization properties -/

theorem splitOnChar_ne_nil (sep : Char) (cs : List Char) :
    splitOnChar sep cs ≠ [] := by
  induction cs with
  | nil => simp [splitOnChar]
  | cons a cs ih =>
    unfold splitOnChar
    cases hsp : splitOnChar sep cs with
    | nil => exact absurd hsp ih
    | cons r rs => split_ifs <;> simp

theorem splitOnChar_no_sep (sep : Char) (cs : List Char) :
    ∀ c ∈ splitOnChar sep cs, sep ∉ c := by
  induction cs with
  | nil =>
    intro c hc
    simp [splitOnChar] at hc
    simp [hc]
  | cons a cs ih =>
    intro c hc
    cases hsp : splitOnChar sep cs with
    | nil => exact absurd hsp (splitOnChar_ne_nil sep cs)
    | cons r rs =>
      have heq : splitOnChar sep (a :: cs)
          = if a = sep then [] :: r :: rs else (a :: r) :: rs := by
        unfold splitOnChar
        rw [hsp]
      rw [heq] at hc
      by_cases ha : a = sep
      · rw [if_pos ha] at hc
        rcases List.mem_cons.mp hc with h1 | h1
        · simp [h1]
        · exact ih c (hsp ▸ h1)
      · rw [if_neg ha] at hc
        rcases List.mem_cons.mp hc with h1 | h1
        · subst h1
          intro hmem
          rcases List.mem_cons.mp hmem with h2 | h2
          · exact ha h2.symm
          · exact ih r (hsp ▸ List.mem_cons_self r rs) h2
        · exact ih c (hsp ▸ List.mem_cons_of_mem r h1)

theorem joinSlash_getLast :
    ∀ comps : List (List Char), (∀ c ∈ comps, c ≠ [] ∧ '/' ∉ c) → comps ≠ [] →
      ∃ x, (joinSlash comps).getLast? = some x ∧ x ≠ '/' := by
  intro comps
  induction comps with
  | nil => exact fun _ h => absurd rfl h
  | cons c cs ih =>
    intro hall _
    cases cs with
    | nil =>
      have hc := hall c (List.mem_cons_self c [])
      obtain ⟨x, hx⟩ : ∃ x, c.getLast? = some x := by
        cases hg : c.getLast? with
        | none => exact absurd (List.getLast?_eq_none_iff.mp hg) hc.1
        | some y => exact ⟨y, rfl⟩
      refine ⟨x, ?_, ?_⟩
      · rw [show joinSlash [c] = c from rfl, hx]
      · intro hx'
        exact hc.2 (hx' ▸ List.mem_of_mem_getLast? (Option.mem_def.mpr hx))
    | cons c2 cs2 =>
      obtain ⟨x, hxeq, hxne⟩ :=
        ih (fun d hd => hall d (List.mem_cons_of_mem c hd)) (by simp)
      refine ⟨x, ?_, hxne⟩
      rw [show joinSlash (c :: c2 :: cs2)
          = c ++ '/' :: joinSlash (c2 :: cs2) from rfl]
      rw [List.getLast?_append]
      rw [show ('/' :: joinSlash (c2 :: cs2))
          = ['/'] ++ joinSlash (c2 :: cs2) from rfl]
      rw [List.getLast?_append, hxeq]
      rfl

theorem joinSlash_head :
    ∀ comps : List (List Char), (∀ c ∈ comps, c ≠ [] ∧ '/' ∉ c) → comps ≠ [] →
      ∃ x, (joinSlash comps).head? = some x ∧ x ≠ '/' := by
  intro comps
  cases comps with
  | nil => exact fun _ h => absurd rfl h
  | cons c cs =>
    intro hall _
    have hc := hall c (List.mem_cons_self c cs)
    obtain ⟨ch, ct, hcc⟩ : ∃ ch ct, c = ch :: ct := by
      cases c with
      | nil => exact absurd rfl hc.1
      | cons ch ct => exact ⟨ch, ct, rfl⟩
    have hch : ch ≠ '/' := by
      intro he
      exact hc.2 (by rw [hcc, ← he]; exact List.mem_cons_self ch ct)
    cases cs with
    | nil => exact ⟨ch, by rw [show joinSlash [c] = c from rfl, hcc]; rfl, hch⟩
    | cons c2 cs2 =>
      refine ⟨ch, ?_, hch⟩
      rw [show joinSlash (c :: c2 :: cs2)
          = c ++ '/' :: joinSlash (c2 :: cs2) from rfl, hcc]
      rfl

/-- C9 (amended): `normalize_path` returns a slash-separated string with
no leading and no trailing separator — but it preserves letter case (the
output for `A.py` keeps the capital), so paths differing only in case can
normalize to different strings (`normalize_path_not_lowercased`). -/
theorem normalize_path_trimmed (p : String) :
    (((normalizePath p).data.head? == some '/') = false)
    ∧ (((normalizePath p).data.getLast? == some '/') = false)
    ∧ normalizePath "A.py" = "A.py" := by
  have key : ∀ cs : List Char,
      (normalizeChars cs).head? ≠ some '/'
        ∧ (normalizeChars cs).getLast? ≠ some '/' := by
    intro cs
    simp only [normalizeChars]
    set comps := (splitSlash cs).filter (fun c => !c.isEmpty && !(c == ['.']))
      with hcompdef
    by_cases hempty : comps.isEmpty
    · rw [if_pos hempty]
      cases h2 : (cs.head? == some '/') <;> simp [h2]
    · rw [if_neg hempty]
      have hne : comps ≠ [] := fun h => hempty (by rw [h]; rfl)
      have hall : ∀ c ∈ comps, c ≠ [] ∧ '/' ∉ c := by
        intro c hcmem
        have hfil := List.of_mem_filter hcmem
        have hmem := List.mem_of_mem_filter hcmem
        constructor
        · intro hnil
          rw [hnil] at hfil
          simp at hfil
        · exact splitOnChar_no_sep '/' cs c hmem
      obtain ⟨x, hx, hxne⟩ := joinSlash_head comps hall hne
      obtain ⟨y, hy, hyne⟩ := joinSlash_getLast comps hall hne
      constructor
      · rw [hx]
        simp [hxne]
      · rw [hy]
        simp [hyne]
  refine ⟨?_, ?_, by decide⟩
  · rw [beq_eq_false_iff_ne]
    exact (key p.data).1
  · rw [beq_eq_false_iff_ne]
    exact (key p.data).2
